import Mathlib

/-!
Verification of the dead-simple-db key/value store core.

This file gives a shallow embedding of the B+tree, KV facade and free-list
of the repository and proves properties of the embedded operations.

Modelling conventions:
* Byte strings are lists of naturals (`Bytes`); `bytes.Compare` becomes
  `bytesCompare` (lexicographic).
* A B+tree node (`BtreeNode`, src/btree_node.go) is a slotted page: a type
  tag plus a list of slots, each slot holding a child pointer, a key and a
  value.  The byte-level accessors (`getKey`, `getPointer`, `nodeWriteAt`,
  `nodeCopyN`, ...) are list operations here; the serialized size is
  computed by the exact formula of `BtreeNode.Size` / `getKvPos`.
  All sizes involved stay far below 2^16, so `Nat` arithmetic agrees with
  the Go `uint16` arithmetic on the inputs considered in the theorems.
* The page allocator callbacks (`Btree.fetch/alloc/free`, wired to the KV
  pager in src/kv.go) are modelled by `Store`: `fetch` reads `mem`,
  `alloc` places a node at the fresh id `next` (the pager's append path),
  `free` records the id in the `freed` log (freeList.Free: the page
  content stays readable until the id is reused, as with the mmap).
* Functions whose Go recursion is through page fetches take a `fuel`
  argument; `none` is the outcome of fuel exhaustion or of a failed
  `assert`/`panic` in the source (a fatal process termination).
-/

/-- Byte strings: a list of byte values. -/
abbrev Bytes := List Nat

/-- One key/value entry; the abstraction of the tree contents. -/
abbrev Entry := Bytes × Bytes

/-! ### Constants (src/btree.go, init with the usual 4096-byte OS page) -/

def PageSize : Nat := 4096

def BTREE_INTERNAL_NODE : Nat := 1
def BTREE_LEAF_NODE : Nat := 2
def BTREE_NODE_HEADER_SIZE : Nat := 4
def BTREE_POINTER_SIZE : Nat := 8
def BTREE_OFFSET_SIZE : Nat := 2
def BTREE_KEY_LEN_SIZE : Nat := 2
def BTREE_VALUE_LEN_SIZE : Nat := 2

/-- Remaining space when a node holds a single key-value pair (src/btree.go init). -/
def btreeSizeRemaining : Nat :=
  PageSize - (BTREE_NODE_HEADER_SIZE + BTREE_POINTER_SIZE + BTREE_OFFSET_SIZE +
    BTREE_KEY_LEN_SIZE + BTREE_VALUE_LEN_SIZE)

def BtreeMaxKeySize : Nat := btreeSizeRemaining / 3

def BtreeMaxValueSize : Nat := btreeSizeRemaining - BtreeMaxKeySize

/-! ### Byte-string comparison (bytes.Compare / bytes.Equal) -/

/-- Lexicographic comparison of byte strings, as `bytes.Compare`. -/
def bytesCompare : Bytes → Bytes → Ordering
  | [], [] => Ordering.eq
  | [], _ :: _ => Ordering.lt
  | _ :: _, [] => Ordering.gt
  | a :: as, b :: bs =>
    if a < b then Ordering.lt
    else if b < a then Ordering.gt
    else bytesCompare as bs

/-- Strict byte-lexicographic order on keys. -/
def keyLt (a b : Bytes) : Prop := bytesCompare a b = Ordering.lt

/-- Non-strict byte-lexicographic order (`bytes.Compare ≤ 0`). -/
def keyLe (a b : Bytes) : Prop := bytesCompare a b ≠ Ordering.gt

instance (a b : Bytes) : Decidable (keyLt a b) := by unfold keyLt; infer_instance

instance (a b : Bytes) : Decidable (keyLe a b) := by unfold keyLe; infer_instance

theorem bytesCompare_eq_iff : ∀ {a b : Bytes}, bytesCompare a b = Ordering.eq ↔ a = b := by
  intro a
  induction a with
  | nil => intro b; cases b <;> simp [bytesCompare]
  | cons x xs ih =>
    intro b
    cases b with
    | nil => simp [bytesCompare]
    | cons y ys =>
      by_cases hxy : x < y
      · simp [bytesCompare, hxy]
        omega
      · by_cases hyx : y < x
        · simp [bytesCompare, hxy, hyx]
          omega
        · have hxyeq : x = y := by omega
          subst hxyeq
          simp [bytesCompare, hxy, hyx, ih]

theorem bytesCompare_self (a : Bytes) : bytesCompare a a = Ordering.eq :=
  bytesCompare_eq_iff.mpr rfl

theorem bytesCompare_swap : ∀ {a b : Bytes},
    bytesCompare a b = Ordering.lt ↔ bytesCompare b a = Ordering.gt := by
  intro a
  induction a with
  | nil => intro b; cases b <;> simp [bytesCompare]
  | cons x xs ih =>
    intro b
    cases b with
    | nil => simp [bytesCompare]
    | cons y ys =>
      by_cases hxy : x < y
      · have hyx : ¬ y < x := by omega
        simp [bytesCompare, hxy, hyx]
      · by_cases hyx : y < x
        · simp [bytesCompare, hxy, hyx]
        · have hxyeq : x = y := by omega
          subst hxyeq
          simp [bytesCompare, hxy, ih]

theorem keyLt_trans : ∀ {a b c : Bytes}, keyLt a b → keyLt b c → keyLt a c := by
  intro a
  induction a with
  | nil =>
    intro b c hab hbc
    cases b with
    | nil => exact hbc
    | cons y ys =>
      cases c with
      | nil => simp [keyLt, bytesCompare] at hbc
      | cons z zs => simp [keyLt, bytesCompare]
  | cons x xs ih =>
    intro b c hab hbc
    cases b with
    | nil => simp [keyLt, bytesCompare] at hab
    | cons y ys =>
      cases c with
      | nil => simp [keyLt, bytesCompare] at hbc
      | cons z zs =>
        simp only [keyLt, bytesCompare] at hab hbc ⊢
        by_cases hxy : x < y <;> by_cases hyz : y < z
        · have hxz : x < z := by omega
          simp [hxz]
        · by_cases hzy : z < y
          · simp [hxy] at hab
            simp [hyz, hzy] at hbc
          · have : y = z := by omega
            subst this
            simp [hxy]
        · by_cases hyx : y < x
          · simp [hxy, hyx] at hab
          · have : x = y := by omega
            subst this
            simp [hyz]
        · by_cases hyx : y < x
          · simp [hxy, hyx] at hab
          · have hxyeq : x = y := by omega
            subst hxyeq
            by_cases hzx : z < x
            · simp [hyz, hzx] at hbc
            · have : x = z := by omega
              subst this
              simp [hxy] at hab ⊢
              simp [hyz] at hbc
              exact ih hab hbc

theorem keyLt_irrefl (a : Bytes) : ¬ keyLt a a := by
  simp [keyLt, bytesCompare_self]

theorem keyLe_iff (a b : Bytes) : keyLe a b ↔ a = b ∨ keyLt a b := by
  constructor
  · intro h
    rcases hc : bytesCompare a b with _ | _ | _
    · exact Or.inr hc
    · exact Or.inl (bytesCompare_eq_iff.mp hc)
    · exact absurd hc h
  · intro h
    rcases h with h | h
    · subst h
      simp [keyLe, bytesCompare_self]
    · unfold keyLe
      rw [show bytesCompare a b = Ordering.lt from h]
      simp

theorem keyLt_asymm {a b : Bytes} (h : keyLt a b) : ¬ keyLt b a := by
  intro h2
  exact keyLt_irrefl a (keyLt_trans h h2)

theorem keyLt_or_ge (a b : Bytes) : keyLt a b ∨ keyLe b a := by
  rcases hc : bytesCompare a b with _ | _ | _
  · exact Or.inl hc
  · refine Or.inr ?_
    have : a = b := bytesCompare_eq_iff.mp hc
    subst this
    simp [keyLe, bytesCompare_self]
  · refine Or.inr ?_
    have : keyLt b a := bytesCompare_swap.mpr hc
    simp [keyLe]
    intro hgt
    exact keyLt_asymm this (bytesCompare_swap.mpr hgt)

theorem keyLt_ne {a b : Bytes} (h : keyLt a b) : a ≠ b := by
  intro he
  subst he
  exact keyLt_irrefl a h

theorem not_keyLe {a b : Bytes} (h : ¬ keyLe a b) : keyLt b a := by
  rcases keyLt_or_ge b a with h' | h'
  · exact h'
  · exact absurd h' h

theorem keyLe_refl (a : Bytes) : keyLe a a := by
  simp [keyLe, bytesCompare_self]

theorem keyLt_le_trans {a b c : Bytes} (h1 : keyLt a b) (h2 : keyLe b c) : keyLt a c := by
  rcases (keyLe_iff b c).mp h2 with he | hlt
  · subst he; exact h1
  · exact keyLt_trans h1 hlt

theorem keyLe_lt_trans {a b c : Bytes} (h1 : keyLe a b) (h2 : keyLt b c) : keyLt a c := by
  rcases (keyLe_iff a b).mp h1 with he | hlt
  · subst he; exact h2
  · exact keyLt_trans hlt h2

theorem keyLt_keyLe {a b : Bytes} (h : keyLt a b) : keyLe a b :=
  (keyLe_iff a b).mpr (Or.inr h)

/-! ### B+tree nodes (src/btree_node.go)

A node is a slotted page: a 2-byte type tag, a slot count, and per slot a
child pointer (8B), an offset (2B), a key-length (2B), a value-length (2B)
and the key and value bytes.  The byte accessors of src/btree_node.go
decode exactly this structure, so the embedding stores the slot list
directly; `BtreeNode.size` recomputes `Size()` (= `getKvPos(nkeys)`). -/

structure Slot where
  ptr : Nat
  key : Bytes
  val : Bytes
deriving Repr, DecidableEq

instance : Inhabited Slot := ⟨⟨0, [], []⟩⟩

structure BtreeNode where
  ntype : Nat
  slots : List Slot
deriving Repr, DecidableEq

instance : Inhabited BtreeNode := ⟨⟨0, []⟩⟩

/-- Bytes one slot contributes to `Size()`: pointer, offset, key length
field, value length field, key bytes and value bytes. -/
def slotExtra (sl : Slot) : Nat :=
  BTREE_POINTER_SIZE + BTREE_OFFSET_SIZE + BTREE_KEY_LEN_SIZE + BTREE_VALUE_LEN_SIZE +
    sl.key.length + sl.val.length

/-- Serialized size of a node: `Size() = getKvPos(nkeys)` of src/btree_node.go. -/
def BtreeNode.size (n : BtreeNode) : Nat :=
  BTREE_NODE_HEADER_SIZE + (n.slots.map slotExtra).sum

def BtreeNode.getNodeType (n : BtreeNode) : Nat := n.ntype

def BtreeNode.getNkeys (n : BtreeNode) : Nat := n.slots.length

/-- The `getPointer` accessor; the source asserts `i < nkeys`, which holds
at every call site reached in the theorems below. -/
def BtreeNode.getPointer (n : BtreeNode) (i : Nat) : Nat := (n.slots.getD i default).ptr

def BtreeNode.getKey (n : BtreeNode) (i : Nat) : Bytes := (n.slots.getD i default).key

def BtreeNode.getValue (n : BtreeNode) (i : Nat) : Bytes := (n.slots.getD i default).val

/-- Entries of a node viewed as a leaf: the (key, value) pairs of its slots. -/
def leafEntries (slots : List Slot) : List Entry := slots.map fun sl => (sl.key, sl.val)

/-! ### findLessThanOrEqualTo (src/btree.go lines 346-361)

The loop starts at slot 1 with `idx = 0`, records every index whose key is
`≤ key` and breaks at the first strictly greater key. -/

/-- Loop body of `findLessThanOrEqualTo`: `i` is the index of the head of
the remaining slot list, `idx` the best index found so far. -/
def findLEAux (q : Bytes) : List Slot → Nat → Nat → Nat
  | [], _, idx => idx
  | sl :: rest, i, idx =>
    match bytesCompare sl.key q with
    | Ordering.gt => idx
    | _ => findLEAux q rest (i + 1) i

def findLessThanOrEqualTo (n : BtreeNode) (q : Bytes) : Nat :=
  findLEAux q (n.slots.drop 1) 1 0

/-- The scan visits slots in order and stops at the first key greater than
the target, so it computes the length of the `keyLe`-prefix. -/
theorem findLEAux_eq_takeWhile (q : Bytes) :
    ∀ (L : List Slot) (i idx : Nat),
      findLEAux q L i idx =
        if (L.takeWhile (fun sl => decide (keyLe sl.key q))).length = 0 then idx
        else i + (L.takeWhile (fun sl => decide (keyLe sl.key q))).length - 1 := by
  intro L
  induction L with
  | nil => intro i idx; simp [findLEAux]
  | cons sl rest ih =>
    intro i idx
    by_cases hle : keyLe sl.key q
    · have hstep : findLEAux q (sl :: rest) i idx = findLEAux q rest (i + 1) i := by
        rcases hc : bytesCompare sl.key q with _ | _ | _
        · simp only [findLEAux, hc]
        · simp only [findLEAux, hc]
        · exact absurd hc hle
      have htw : (sl :: rest).takeWhile (fun sl => decide (keyLe sl.key q)) =
          sl :: rest.takeWhile (fun sl => decide (keyLe sl.key q)) := by
        rw [List.takeWhile_cons]
        rw [show decide (keyLe sl.key q) = true by simpa using hle]
        rfl
      rw [hstep, ih, htw]
      rw [List.length_cons]
      by_cases hz : (rest.takeWhile (fun sl => decide (keyLe sl.key q))).length = 0
      · rw [if_pos hz, hz]
        simp
      · rw [if_neg hz, if_neg (by omega :
          ¬ ((rest.takeWhile (fun sl => decide (keyLe sl.key q))).length + 1 = 0))]
        omega
    · have hgt : bytesCompare sl.key q = Ordering.gt := by
        by_contra hne
        exact hle hne
      have hstep : findLEAux q (sl :: rest) i idx = idx := by
        simp only [findLEAux, hgt]
      have htw : (sl :: rest).takeWhile (fun sl => decide (keyLe sl.key q)) = [] := by
        rw [List.takeWhile_cons]
        rw [show decide (keyLe sl.key q) = false by simpa using hle]
        rfl
      rw [hstep, htw]
      simp

/-- In a node with at least one slot, `findLessThanOrEqualTo` returns the
number of slots after slot 0 whose key is `≤ q` and stops at the first
greater key. -/
theorem findLE_eq (n : BtreeNode) (q : Bytes) :
    findLessThanOrEqualTo n q =
      ((n.slots.drop 1).takeWhile (fun sl => decide (keyLe sl.key q))).length := by
  unfold findLessThanOrEqualTo
  rw [findLEAux_eq_takeWhile]
  by_cases hz : ((n.slots.drop 1).takeWhile (fun sl => decide (keyLe sl.key q))).length = 0
  · rw [if_pos hz, hz]
  · rw [if_neg hz]
    omega

/-! ### Node splitting (src/btree.go lines 222-279)

`nodeLeftRightSplit` walks the slots from the last one downwards,
accumulating the prospective right-node size starting from the header
size, and stops as soon as the next slot would overflow `PageSize`; the
stop index becomes `rightIdx`.  `splitTakeCount` computes how many slots
the walk takes, scanning the reversed slot-extra list.  The `[]` case
(the walk exhausting the node without a break) is reached only when the
whole node fits in a page; `nodeLeftRightSplit` is only invoked on
oversized nodes, where the break is guaranteed. -/

def splitTakeCount (acc : Nat) : List Nat → Nat
  | [] => 0
  | e :: es => if PageSize < acc + e then 0 else splitTakeCount (acc + e) es + 1

def nodeLeftRightSplit (node : BtreeNode) : BtreeNode × BtreeNode :=
  let m := splitTakeCount BTREE_NODE_HEADER_SIZE (node.slots.reverse.map slotExtra)
  let rightIdx := node.slots.length - m
  (⟨node.ntype, node.slots.take rightIdx⟩, ⟨node.ntype, node.slots.drop rightIdx⟩)

/-- The split of an over-sized node into up to three pieces
(src/btree.go `nodeSplit`).  `none` is the failing
`assert(newLeft.Size() <= PageSize)` (a panic). -/
def nodeSplit (node : BtreeNode) : Option (Nat × List BtreeNode) :=
  if node.size ≤ PageSize then some (1, [node])
  else
    let lr := nodeLeftRightSplit node
    if lr.1.size ≤ PageSize then some (2, [lr.1, lr.2])
    else
      let lm := nodeLeftRightSplit lr.1
      if lm.1.size ≤ PageSize then some (3, [lm.1, lm.2, lr.2])
      else none

/-! Properties of the greedy walk. -/

theorem splitTakeCount_le_length (acc : Nat) (es : List Nat) :
    splitTakeCount acc es ≤ es.length := by
  induction es generalizing acc with
  | nil => simp [splitTakeCount]
  | cons e es ih =>
    unfold splitTakeCount
    by_cases h : PageSize < acc + e
    · simp [h]
    · simp only [if_neg h, List.length_cons]
      have := ih (acc + e)
      omega

theorem splitTakeCount_sum_le (acc : Nat) (es : List Nat) (hacc : acc ≤ PageSize) :
    acc + (es.take (splitTakeCount acc es)).sum ≤ PageSize := by
  induction es generalizing acc with
  | nil => simpa [splitTakeCount]
  | cons e es ih =>
    unfold splitTakeCount
    by_cases h : PageSize < acc + e
    · simpa [h]
    · simp only [if_neg h, List.take_succ_cons, List.sum_cons]
      have := ih (acc + e) (by omega)
      omega

theorem splitTakeCount_break (acc : Nat) (es : List Nat)
    (hlt : splitTakeCount acc es < es.length) :
    PageSize < acc + (es.take (splitTakeCount acc es + 1)).sum := by
  induction es generalizing acc with
  | nil => simp at hlt
  | cons e es ih =>
    unfold splitTakeCount at hlt ⊢
    by_cases h : PageSize < acc + e
    · simp only [if_pos h, List.take_succ_cons, List.take_zero, List.sum_cons, List.sum_nil]
      omega
    · simp only [if_neg h, List.length_cons] at hlt
      simp only [if_neg h, List.take_succ_cons, List.sum_cons]
      have := ih (acc + e) (by omega)
      omega

theorem splitTakeCount_lt_of_sum_gt (acc : Nat) (es : List Nat)
    (hacc : acc ≤ PageSize) (h : PageSize < acc + es.sum) :
    splitTakeCount acc es < es.length := by
  induction es generalizing acc with
  | nil => simp at h; omega
  | cons e es ih =>
    unfold splitTakeCount
    by_cases hb : PageSize < acc + e
    · simp [hb]
    · simp only [if_neg hb, List.length_cons]
      have := ih (acc + e) (by omega) (by simp at h; omega)
      omega

theorem splitTakeCount_pos (acc e : Nat) (es : List Nat)
    (h : acc + e ≤ PageSize) :
    0 < splitTakeCount acc (e :: es) := by
  unfold splitTakeCount
  rw [if_neg (by omega)]
  omega

/-! List sum utilities used by the split analysis. -/

theorem sum_drop_add_sum_take (l : List Nat) (k : Nat) :
    (l.take k).sum + (l.drop k).sum = l.sum := by
  rw [← List.sum_append, List.take_append_drop]

theorem sum_drop_anti (l : List Nat) {j k : Nat} (h : j ≤ k) :
    (l.drop k).sum ≤ (l.drop j).sum := by
  have h1 : (l.drop j).drop (k - j) = l.drop k := by
    rw [List.drop_drop]
    congr 1
    omega
  calc (l.drop k).sum = ((l.drop j).drop (k - j)).sum := by rw [h1]
    _ ≤ ((l.drop j).take (k - j)).sum + ((l.drop j).drop (k - j)).sum := by omega
    _ = (l.drop j).sum := sum_drop_add_sum_take _ _


theorem take_reverse_sum (l : List Nat) (m : Nat) (hm : m ≤ l.length) :
    (l.reverse.take m).sum = (l.drop (l.length - m)).sum := by
  have hlen : (l.drop (l.length - m)).length = m := by
    rw [List.length_drop]
    omega
  have hsplit : l.reverse = (l.drop (l.length - m)).reverse ++ (l.take (l.length - m)).reverse := by
    rw [← List.reverse_append, List.take_append_drop]
  rw [hsplit, List.take_left' (by rw [List.length_reverse]; exact hlen), List.sum_reverse]

theorem splitTakeCount_pos' (acc : Nat) (es : List Nat) (hne : es ≠ [])
    (h : ∀ e ∈ es, acc + e ≤ PageSize) : 0 < splitTakeCount acc es := by
  cases es with
  | nil => simp at hne
  | cons e es =>
    unfold splitTakeCount
    rw [if_neg (by have := h e (by simp); omega)]
    omega

/-- Unfolding of `nodeLeftRightSplit` on an over-sized node: the node is
cut at an index `k ≥ 1`; the right part fits in a page; the walk stopped
because the slot before the cut no longer fits. -/
theorem nodeLeftRightSplit_spec (node : BtreeNode) (hover : PageSize < node.size) :
    ∃ k, 1 ≤ k ∧ k ≤ node.slots.length ∧
      (nodeLeftRightSplit node).1 = ⟨node.ntype, node.slots.take k⟩ ∧
      (nodeLeftRightSplit node).2 = ⟨node.ntype, node.slots.drop k⟩ ∧
      BTREE_NODE_HEADER_SIZE + ((node.slots.map slotExtra).drop k).sum ≤ PageSize ∧
      PageSize < BTREE_NODE_HEADER_SIZE + ((node.slots.map slotExtra).drop (k - 1)).sum ∧
      k = node.slots.length -
        splitTakeCount BTREE_NODE_HEADER_SIZE ((node.slots.map slotExtra).reverse) := by
  have hrev : node.slots.reverse.map slotExtra = (node.slots.map slotExtra).reverse := by
    rw [List.map_reverse]
  set ex := node.slots.map slotExtra with hex
  have hlen : ex.length = node.slots.length := by rw [hex, List.length_map]
  set m := splitTakeCount BTREE_NODE_HEADER_SIZE ex.reverse with hm
  have hmle : m ≤ node.slots.length := by
    have := splitTakeCount_le_length BTREE_NODE_HEADER_SIZE ex.reverse
    rw [List.length_reverse, hlen] at this
    exact this
  have hsum : node.size = BTREE_NODE_HEADER_SIZE + ex.sum := rfl
  have hmlt : m < node.slots.length := by
    have h4 : BTREE_NODE_HEADER_SIZE ≤ PageSize := by decide
    have := splitTakeCount_lt_of_sum_gt BTREE_NODE_HEADER_SIZE ex.reverse h4
      (by rw [List.sum_reverse]; omega)
    rw [List.length_reverse, hlen] at this
    exact this
  refine ⟨node.slots.length - m, by omega, by omega, ?_, ?_, ?_, ?_, rfl⟩
  · show (⟨node.ntype, node.slots.take (node.slots.length -
        splitTakeCount BTREE_NODE_HEADER_SIZE (node.slots.reverse.map slotExtra))⟩ : BtreeNode) = _
    rw [hrev]
  · show (⟨node.ntype, node.slots.drop (node.slots.length -
        splitTakeCount BTREE_NODE_HEADER_SIZE (node.slots.reverse.map slotExtra))⟩ : BtreeNode) = _
    rw [hrev]
  · have h1 : (ex.reverse.take m).sum = (ex.drop (ex.length - m)).sum :=
      take_reverse_sum ex m (by omega)
    have h2 := splitTakeCount_sum_le BTREE_NODE_HEADER_SIZE ex.reverse (by decide)
    rw [← hm, h1, hlen] at h2
    exact h2
  · have h1 : (ex.reverse.take (m + 1)).sum = (ex.drop (ex.length - (m + 1))).sum :=
      take_reverse_sum ex (m + 1) (by omega)
    have h2 := splitTakeCount_break BTREE_NODE_HEADER_SIZE ex.reverse
      (by rw [List.length_reverse, ← hm]; omega)
    rw [← hm, h1] at h2
    have he : ex.length - (m + 1) = node.slots.length - m - 1 := by omega
    rw [he] at h2
    exact h2

/-- Whenever `nodeSplit` returns (no assert fired), the pieces carry the
node type, each piece fits in a page, and the concatenation of the pieces'
slot lists is exactly the input's slot list. -/
theorem nodeSplit_some_spec (node : BtreeNode) (k : Nat) (pieces : List BtreeNode)
    (h : nodeSplit node = some (k, pieces)) :
    k = pieces.length ∧ 1 ≤ k ∧ k ≤ 3 ∧
    (pieces.map BtreeNode.slots).flatten = node.slots ∧
    ∀ p ∈ pieces, p.ntype = node.ntype ∧ p.size ≤ PageSize := by
  unfold nodeSplit at h
  by_cases h1 : node.size ≤ PageSize
  · rw [if_pos h1] at h
    injection h with h
    injection h with hk hp
    subst hk
    subst hp
    refine ⟨rfl, by omega, by omega, by simp, ?_⟩
    intro p hp
    simp at hp
    subst hp
    exact ⟨rfl, h1⟩
  · rw [if_neg h1] at h
    obtain ⟨k1, hk11, hk1len, hfst, hsnd, hrsz, _hbrk, _⟩ :=
      nodeLeftRightSplit_spec node (by omega)
    by_cases h2 : (nodeLeftRightSplit node).1.size ≤ PageSize
    · rw [if_pos h2] at h
      injection h with h
      injection h with hk hp
      subst hk
      subst hp
      refine ⟨rfl, by omega, by omega, ?_, ?_⟩
      · simp only [List.map_cons, List.map_nil, List.flatten_cons, List.flatten_nil,
          List.append_nil]
        rw [hfst, hsnd]
        exact List.take_append_drop k1 node.slots
      · intro p hp
        simp at hp
        rcases hp with hp | hp <;> subst hp
        · exact ⟨by rw [hfst], h2⟩
        · constructor
          · rw [hsnd]
          · rw [hsnd]
            show BTREE_NODE_HEADER_SIZE + ((node.slots.drop k1).map slotExtra).sum ≤ PageSize
            rw [List.map_drop]
            exact hrsz
    · rw [if_neg h2] at h
      obtain ⟨k2, hk21, hk2len, hfst2, hsnd2, hrsz2, _hbrk2, _⟩ :=
        nodeLeftRightSplit_spec (nodeLeftRightSplit node).1 (by omega)
      by_cases h3 : (nodeLeftRightSplit (nodeLeftRightSplit node).1).1.size ≤ PageSize
      · rw [if_pos h3] at h
        injection h with h
        injection h with hk hp
        subst hk
        subst hp
        refine ⟨rfl, by omega, by omega, ?_, ?_⟩
        · simp only [List.map_cons, List.map_nil, List.flatten_cons, List.flatten_nil,
            List.append_nil]
          rw [hfst2, hsnd2, hsnd]
          show List.take k2 (nodeLeftRightSplit node).1.slots ++
            (List.drop k2 (nodeLeftRightSplit node).1.slots ++ List.drop k1 node.slots) =
            node.slots
          rw [← List.append_assoc, List.take_append_drop, hfst]
          exact List.take_append_drop k1 node.slots
        · intro p hp
          simp at hp
          rcases hp with hp | hp | hp <;> subst hp
          · refine ⟨?_, h3⟩
            rw [hfst2, hfst]
          · constructor
            · rw [hsnd2, hfst]
            · rw [hsnd2]
              show BTREE_NODE_HEADER_SIZE +
                (((nodeLeftRightSplit node).1.slots.drop k2).map slotExtra).sum ≤ PageSize
              rw [List.map_drop]
              exact hrsz2
          · constructor
            · rw [hsnd]
            · rw [hsnd]
              show BTREE_NODE_HEADER_SIZE + ((node.slots.drop k1).map slotExtra).sum ≤ PageSize
              rw [List.map_drop]
              exact hrsz
      · rw [if_neg h3] at h
        exact absurd h (by simp)

theorem slotExtra_le_of_bounds {sl : Slot} (h1 : sl.key.length ≤ BtreeMaxKeySize)
    (h2 : sl.val.length ≤ BtreeMaxValueSize) :
    slotExtra sl ≤ PageSize - BTREE_NODE_HEADER_SIZE := by
  have hk : BtreeMaxKeySize = 1359 := by decide
  have hv : BtreeMaxValueSize = 2719 := by decide
  unfold slotExtra BTREE_POINTER_SIZE BTREE_OFFSET_SIZE BTREE_KEY_LEN_SIZE BTREE_VALUE_LEN_SIZE
  show 8 + 2 + 2 + 2 + sl.key.length + sl.val.length ≤ PageSize - BTREE_NODE_HEADER_SIZE
  have : PageSize - BTREE_NODE_HEADER_SIZE = 4092 := by decide
  omega

/-- Amended form of the split guarantee: whenever every slot obeys the
key/value size bounds and the node's total size is at most
`2 * PageSize - 3`, `nodeSplit` succeeds (the final assert cannot fire)
and returns 1-3 pieces that each fit in a page and whose slot lists
concatenate to the input's slot list.  (At size `2 * PageSize - 2` the
assert can fire, see the counterexample.) -/
theorem nodeSplit_bounded_spec (node : BtreeNode)
    (hb : ∀ sl ∈ node.slots, sl.key.length ≤ BtreeMaxKeySize ∧
      sl.val.length ≤ BtreeMaxValueSize)
    (hsz : node.size ≤ 2 * PageSize - 3) :
    ∃ pieces : List BtreeNode, nodeSplit node = some (pieces.length, pieces) ∧
      1 ≤ pieces.length ∧ pieces.length ≤ 3 ∧
      (∀ p ∈ pieces, p.size ≤ PageSize ∧ p.ntype = node.ntype) ∧
      (pieces.map BtreeNode.slots).flatten = node.slots := by
  have hex : ∀ e ∈ node.slots.map slotExtra, e ≤ PageSize - BTREE_NODE_HEADER_SIZE := by
    intro e he
    rw [List.mem_map] at he
    obtain ⟨sl, hsl, rfl⟩ := he
    exact slotExtra_le_of_bounds (hb sl hsl).1 (hb sl hsl).2
  by_cases h1 : node.size ≤ PageSize
  · refine ⟨[node], ?_, by simp, by simp, ?_, by simp⟩
    · unfold nodeSplit
      rw [if_pos h1]
      rfl
    · intro p hp
      simp at hp
      subst hp
      exact ⟨h1, rfl⟩
  · obtain ⟨k1, hk11, hk1len, hfst, hsnd, hrsz, hbrk, _⟩ :=
      nodeLeftRightSplit_spec node (by omega)
    have hsplit1 : nodeSplit node =
        if (nodeLeftRightSplit node).1.size ≤ PageSize then
          some (2, [(nodeLeftRightSplit node).1, (nodeLeftRightSplit node).2])
        else
          if (nodeLeftRightSplit (nodeLeftRightSplit node).1).1.size ≤ PageSize then
            some (3, [(nodeLeftRightSplit (nodeLeftRightSplit node).1).1,
              (nodeLeftRightSplit (nodeLeftRightSplit node).1).2,
              (nodeLeftRightSplit node).2])
          else none := by
      unfold nodeSplit
      rw [if_neg h1]
    by_cases h2 : (nodeLeftRightSplit node).1.size ≤ PageSize
    · rw [if_pos h2] at hsplit1
      refine ⟨[(nodeLeftRightSplit node).1, (nodeLeftRightSplit node).2],
        hsplit1, by simp, by simp, ?_, ?_⟩
      · intro p hp
        simp at hp
        rcases hp with hp | hp <;> subst hp
        · exact ⟨h2, by rw [hfst]⟩
        · refine ⟨?_, by rw [hsnd]⟩
          rw [hsnd]
          show BTREE_NODE_HEADER_SIZE + ((node.slots.drop k1).map slotExtra).sum ≤ PageSize
          rw [List.map_drop]
          exact hrsz
      · simp only [List.map_cons, List.map_nil, List.flatten_cons, List.flatten_nil,
          List.append_nil]
        rw [hfst, hsnd]
        exact List.take_append_drop k1 node.slots
    · -- three-way split: the left part of the first split is still oversized
      rw [if_neg h2] at hsplit1
      have hleft_over : PageSize < (nodeLeftRightSplit node).1.size := by omega
      obtain ⟨k2, hk21, hk2len, hfst2, hsnd2, hrsz2, hbrk2, hk2eq⟩ :=
        nodeLeftRightSplit_spec (nodeLeftRightSplit node).1 hleft_over
      have hlen1 : (nodeLeftRightSplit node).1.slots.length = k1 := by
        rw [hfst]
        show (node.slots.take k1).length = k1
        rw [List.length_take]
        omega
      have hlex : (nodeLeftRightSplit node).1.slots.map slotExtra =
          (node.slots.map slotExtra).take k1 := by
        rw [hfst]
        show (node.slots.take k1).map slotExtra = (node.slots.map slotExtra).take k1
        rw [List.map_take]
      -- the second walk takes at least one slot, so the cut is strictly below k1:
      -- the last slot of the left part always fits in an otherwise empty page
      have hk2lt : k2 < k1 := by
        have hmem : ∀ e ∈ ((nodeLeftRightSplit node).1.slots.map slotExtra).reverse,
            BTREE_NODE_HEADER_SIZE + e ≤ PageSize := by
          intro e he
          rw [List.mem_reverse, hlex] at he
          have hm := hex e (List.mem_of_mem_take he)
          have h4 : BTREE_NODE_HEADER_SIZE = 4 := rfl
          have hps : PageSize = 4096 := rfl
          omega
        have hne : ((nodeLeftRightSplit node).1.slots.map slotExtra).reverse ≠ [] := by
          simp only [ne_eq, List.reverse_eq_nil_iff, List.map_eq_nil_iff]
          intro hcon
          rw [hcon] at hlen1
          simp at hlen1
          omega
        have hrev' : (nodeLeftRightSplit node).1.slots.reverse.map slotExtra =
            ((nodeLeftRightSplit node).1.slots.map slotExtra).reverse := by
          rw [List.map_reverse]
        have hpos := splitTakeCount_pos' BTREE_NODE_HEADER_SIZE
          (((nodeLeftRightSplit node).1.slots.map slotExtra).reverse) hne hmem
        omega
      -- arithmetic: the third piece (the new left) fits in a page
      have h3 : (nodeLeftRightSplit (nodeLeftRightSplit node).1).1.size ≤ PageSize := by
        rw [hfst2]
        show BTREE_NODE_HEADER_SIZE +
          (((nodeLeftRightSplit node).1.slots.take k2).map slotExtra).sum ≤ PageSize
        rw [List.map_take, hlex, List.take_take, Nat.min_def, if_pos (by omega : k2 ≤ k1)]
        have hdropanti := sum_drop_anti (node.slots.map slotExtra) (by omega : k2 ≤ k1 - 1)
        have hsumsplit := sum_drop_add_sum_take (node.slots.map slotExtra) k2
        have hszex : node.size = BTREE_NODE_HEADER_SIZE + (node.slots.map slotExtra).sum := rfl
        have h4 : BTREE_NODE_HEADER_SIZE = 4 := rfl
        have hps : PageSize = 4096 := rfl
        omega
      rw [if_pos h3] at hsplit1
      refine ⟨[(nodeLeftRightSplit (nodeLeftRightSplit node).1).1,
        (nodeLeftRightSplit (nodeLeftRightSplit node).1).2,
        (nodeLeftRightSplit node).2], hsplit1, by simp, by simp, ?_, ?_⟩
      · intro p hp
        simp at hp
        rcases hp with hp | hp | hp <;> subst hp
        · refine ⟨h3, ?_⟩
          rw [hfst2, hfst]
        · constructor
          · rw [hsnd2]
            show BTREE_NODE_HEADER_SIZE +
              (((nodeLeftRightSplit node).1.slots.drop k2).map slotExtra).sum ≤ PageSize
            rw [List.map_drop]
            exact hrsz2
          · rw [hsnd2, hfst]
        · constructor
          · rw [hsnd]
            show BTREE_NODE_HEADER_SIZE + ((node.slots.drop k1).map slotExtra).sum ≤ PageSize
            rw [List.map_drop]
            exact hrsz
          · rw [hsnd]
      · simp only [List.map_cons, List.map_nil, List.flatten_cons, List.flatten_nil,
          List.append_nil]
        rw [hfst2, hsnd2, hsnd]
        show List.take k2 (nodeLeftRightSplit node).1.slots ++
          (List.drop k2 (nodeLeftRightSplit node).1.slots ++ List.drop k1 node.slots) =
          node.slots
        rw [← List.append_assoc, List.take_append_drop, hfst]
        exact List.take_append_drop k1 node.slots

/-- A node within the per-slot bounds whose total size is 2*PageSize - 2:
four slots of extras 2047, 2046, 2047, 2046 bytes. -/
def c2Node : BtreeNode :=
  ⟨BTREE_LEAF_NODE,
    [⟨0, [0], List.replicate 2032 7⟩,
     ⟨0, [1], List.replicate 2031 7⟩,
     ⟨0, [2], List.replicate 2032 7⟩,
     ⟨0, [3], List.replicate 2031 7⟩]⟩

/-- A small in-bounds node used to witness the amended split theorem. -/
def c2WitnessNode : BtreeNode := ⟨BTREE_LEAF_NODE, [⟨0, [1], [2]⟩]⟩

theorem c2_counterexample_eval :
    c2Node.size ≤ 2 * PageSize ∧
    (∀ sl ∈ c2Node.slots, sl.key.length ≤ BtreeMaxKeySize ∧
      sl.val.length ≤ BtreeMaxValueSize) ∧
    nodeSplit c2Node = none := by
  have hex : c2Node.slots.map slotExtra = [2047, 2046, 2047, 2046] := by
    simp only [c2Node, List.map_cons, List.map_nil, slotExtra, List.length_replicate,
      BTREE_POINTER_SIZE, BTREE_OFFSET_SIZE, BTREE_KEY_LEN_SIZE, BTREE_VALUE_LEN_SIZE]
    norm_num
  have hsize : c2Node.size = 8190 := by
    show BTREE_NODE_HEADER_SIZE + (c2Node.slots.map slotExtra).sum = 8190
    rw [hex]
    decide
  have hrev : c2Node.slots.reverse.map slotExtra = [2046, 2047, 2046, 2047] := by
    rw [List.map_reverse, hex]
    rfl
  have hsplit : nodeLeftRightSplit c2Node =
      (⟨c2Node.ntype, c2Node.slots.take 3⟩, ⟨c2Node.ntype, c2Node.slots.drop 3⟩) := by
    simp only [nodeLeftRightSplit]
    rw [hrev,
      show splitTakeCount BTREE_NODE_HEADER_SIZE [2046, 2047, 2046, 2047] = 1 from by decide,
      show c2Node.slots.length = 4 from rfl]
  have hlsize : (nodeLeftRightSplit c2Node).1.size = 6144 := by
    rw [hsplit]
    simp only [BtreeNode.size]
    rw [List.map_take, hex]
    decide
  have htex : (c2Node.slots.take 3).reverse.map slotExtra = [2047, 2046, 2047] := by
    rw [List.map_reverse, List.map_take, hex]
    rfl
  have hsplit2 : nodeLeftRightSplit (nodeLeftRightSplit c2Node).1 =
      (⟨c2Node.ntype, (c2Node.slots.take 3).take 2⟩,
       ⟨c2Node.ntype, (c2Node.slots.take 3).drop 2⟩) := by
    rw [hsplit]
    simp only [nodeLeftRightSplit]
    rw [htex,
      show splitTakeCount BTREE_NODE_HEADER_SIZE [2047, 2046, 2047] = 1 from by decide,
      show (c2Node.slots.take 3).length = 3 from rfl]
  have hllsize : (nodeLeftRightSplit (nodeLeftRightSplit c2Node).1).1.size = 4097 := by
    rw [hsplit2]
    simp only [BtreeNode.size]
    rw [List.map_take, List.map_take, hex]
    decide
  refine ⟨by rw [hsize]; decide, ?_, ?_⟩
  · intro sl hsl
    have hk : BtreeMaxKeySize = 1359 := by decide
    have hv : BtreeMaxValueSize = 2719 := by decide
    simp only [c2Node, List.mem_cons, List.not_mem_nil, or_false] at hsl
    rcases hsl with rfl | rfl | rfl | rfl <;>
      exact ⟨by simp only [hk, List.length_cons, List.length_nil]; omega,
        by simp only [hv, List.length_replicate]; omega⟩
  · have e1 : nodeSplit c2Node =
        if (nodeLeftRightSplit c2Node).1.size ≤ PageSize then
          some (2, [(nodeLeftRightSplit c2Node).1, (nodeLeftRightSplit c2Node).2])
        else
          if (nodeLeftRightSplit (nodeLeftRightSplit c2Node).1).1.size ≤ PageSize then
            some (3, [(nodeLeftRightSplit (nodeLeftRightSplit c2Node).1).1,
              (nodeLeftRightSplit (nodeLeftRightSplit c2Node).1).2,
              (nodeLeftRightSplit c2Node).2])
          else none := by
      unfold nodeSplit
      rw [if_neg (by rw [hsize]; decide)]
    rw [e1, if_neg (by rw [hlsize]; decide), if_neg (by rw [hllsize]; decide)]

theorem c2_amended_witness :
    (∀ sl ∈ c2WitnessNode.slots, sl.key.length ≤ BtreeMaxKeySize ∧
      sl.val.length ≤ BtreeMaxValueSize) ∧
    c2WitnessNode.size ≤ 2 * PageSize - 3 ∧
    ∃ pieces : List BtreeNode, nodeSplit c2WitnessNode = some (pieces.length, pieces) ∧
      1 ≤ pieces.length ∧ pieces.length ≤ 3 ∧
      (∀ p ∈ pieces, p.size ≤ PageSize ∧ p.ntype = c2WitnessNode.ntype) ∧
      (pieces.map BtreeNode.slots).flatten = c2WitnessNode.slots :=
  ⟨by decide, by decide, nodeSplit_bounded_spec c2WitnessNode (by decide) (by decide)⟩

/-! ### The page store

The `Btree` struct (src/btree.go) owns three callbacks wired by KV.Open to
the pager: `fetch` reads a page, `alloc` places a page under a fresh id
(the pager's append path, `KV.appendPage`: the id after all pages in use),
and `free` hands the id to the free list (`freeList.Free` appends it to
the pending list; the page content remains readable until reuse, exactly
as the mmap keeps serving freed pages). -/

structure Store where
  mem : Nat → BtreeNode
  next : Nat

def Store.fetch (s : Store) (p : Nat) : BtreeNode := s.mem p

def Store.alloc (s : Store) (n : BtreeNode) : Nat × Store :=
  (s.next, ⟨fun p => if p = s.next then n else s.mem p, s.next + 1⟩)

def Store.free (s : Store) (_p : Nat) : Store := s

/-- Store evolution: later stores only add pages at fresh ids. -/
def StoreLe (s s' : Store) : Prop :=
  s.next ≤ s'.next ∧ ∀ p, p < s.next → s'.mem p = s.mem p

theorem StoreLe.refl (s : Store) : StoreLe s s := ⟨Nat.le_refl _, fun _ _ => rfl⟩

theorem StoreLe.trans {s1 s2 s3 : Store} (h1 : StoreLe s1 s2) (h2 : StoreLe s2 s3) :
    StoreLe s1 s3 := by
  refine ⟨Nat.le_trans h1.1 h2.1, fun p hp => ?_⟩
  rw [h2.2 p (Nat.lt_of_lt_of_le hp h1.1), h1.2 p hp]

theorem StoreLe.alloc (s : Store) (n : BtreeNode) : StoreLe s (s.alloc n).2 := by
  refine ⟨by simp [Store.alloc], fun p hp => ?_⟩
  simp only [Store.alloc]
  rw [if_neg (by omega)]

theorem Store.alloc_mem (s : Store) (n : BtreeNode) :
    (s.alloc n).2.mem (s.alloc n).1 = n := by
  simp [Store.alloc]

theorem Store.alloc_fst (s : Store) (n : BtreeNode) : (s.alloc n).1 = s.next := rfl

theorem Store.alloc_next (s : Store) (n : BtreeNode) : (s.alloc n).2.next = s.next + 1 := rfl

/-! ### Node surgery helpers (src/btree.go lines 363-389 and 281-304)

`leafInsertKV`, `leafUpdateKV` and `leafDeleteKV` build a fresh node from
an old one by `nodeCopyN` of the untouched ranges and one `nodeWriteAt`
(the new pair is written with pointer 0); at the slot-list level these are
list splices.  `mergeNode` concatenates two nodes (panics when the types
differ).  `updateChildren` replaces the child range `[start, end)` of an
internal node with freshly allocated children; `nodeWriteAt` reads
`child.getKey(0)`, whose bounds assert panics on a childless node. -/

def leafInsertKV (old : BtreeNode) (idx : Nat) (key val : Bytes) : BtreeNode :=
  ⟨BTREE_LEAF_NODE, old.slots.take idx ++ ⟨0, key, val⟩ :: old.slots.drop idx⟩

def leafUpdateKV (old : BtreeNode) (idx : Nat) (key val : Bytes) : BtreeNode :=
  ⟨BTREE_LEAF_NODE, old.slots.take idx ++ ⟨0, key, val⟩ :: old.slots.drop (idx + 1)⟩

def leafDeleteKV (old : BtreeNode) (idx : Nat) : BtreeNode :=
  ⟨old.ntype, old.slots.take idx ++ old.slots.drop (idx + 1)⟩

def mergeNode (left right : BtreeNode) : Option BtreeNode :=
  if left.ntype = right.ntype then some ⟨left.ntype, left.slots ++ right.slots⟩
  else none

/-- Allocate the children in order and build their parent slots
(`tree.alloc(child)` with key `child.getKey(0)` and nil value).  `none`
when a child has no slot 0 (the source's `getKey` assert). -/
def allocChildren (s : Store) : List BtreeNode → Option (List Slot × Store)
  | [] => some ([], s)
  | c :: rest =>
    if c.slots = [] then none
    else
      let (p, s1) := s.alloc c
      match allocChildren s1 rest with
      | none => none
      | some (slots, s2) => some (⟨p, c.getKey 0, []⟩ :: slots, s2)

def updateChildren (s : Store) (old : BtreeNode) (start fin : Nat)
    (children : List BtreeNode) : Option (BtreeNode × Store) :=
  if old.ntype ≠ BTREE_INTERNAL_NODE then none
  else if ¬ (start < fin ∧ fin ≤ old.slots.length) then none
  else
    match allocChildren s children with
    | none => none
    | some (newSlots, s') =>
      some (⟨BTREE_INTERNAL_NODE, old.slots.take start ++ newSlots ++ old.slots.drop fin⟩, s')

/-! ### shouldMerge (src/btree.go lines 314-339) -/

inductive MergeDir where
  | left
  | right
  | noMerge
deriving Repr, DecidableEq

def shouldMerge (s : Store) (parent : BtreeNode) (idx : Nat) (child : BtreeNode) :
    MergeDir × Option BtreeNode :=
  if PageSize / 4 ≤ child.size then (MergeDir.noMerge, none)
  else if 0 < idx ∧
      (s.fetch (parent.getPointer (idx - 1))).size + child.size - BTREE_NODE_HEADER_SIZE ≤
        PageSize then
    (MergeDir.left, some (s.fetch (parent.getPointer (idx - 1))))
  else if idx + 1 < parent.getNkeys ∧
      (s.fetch (parent.getPointer (idx + 1))).size + child.size - BTREE_NODE_HEADER_SIZE ≤
        PageSize then
    (MergeDir.right, some (s.fetch (parent.getPointer (idx + 1))))
  else
    (MergeDir.noMerge, none)

/-! ### Recursive tree operations (src/btree.go)

The recursion of the source walks pages through `fetch`; the embedding
carries `fuel` bounded below by the tree height.  `none` is a panic
(failed assert, invalid node type) or fuel exhaustion. -/

def treeGet (s : Store) : Nat → BtreeNode → Bytes → Option (Option Bytes)
  | 0, _, _ => none
  | fuel + 1, node, key =>
    let idx := findLessThanOrEqualTo node key
    if node.getNodeType = BTREE_LEAF_NODE then
      if key = node.getKey idx then some (some (node.getValue idx)) else some none
    else if node.getNodeType = BTREE_INTERNAL_NODE then
      treeGet s fuel (s.fetch (node.getPointer idx)) key
    else none

/-- Btree.Get (src/btree.go lines 59-67): `(nil, false)` for an invalid
key or an empty tree, else the recursive lookup. -/
def BtreeGet (s : Store) (root : Nat) (key : Bytes) (fuel : Nat) : Option (Option Bytes) :=
  if key.length = 0 ∨ BtreeMaxKeySize < key.length then some none
  else if root = 0 then some none
  else treeGet s fuel (s.fetch root) key

def treeInsert : Nat → Store → BtreeNode → Bytes → Bytes → Option (BtreeNode × Store)
  | 0, _, _, _, _ => none
  | fuel + 1, s, node, key, val =>
    let idx := findLessThanOrEqualTo node key
    if node.getNodeType = BTREE_LEAF_NODE then
      if key = node.getKey idx then some (leafUpdateKV node idx key val, s)
      else some (leafInsertKV node (idx + 1) key val, s)
    else if node.getNodeType = BTREE_INTERNAL_NODE then
      let childPtr := node.getPointer idx
      match treeInsert fuel s (s.fetch childPtr) key val with
      | none => none
      | some (child, s1) =>
        let s2 := s1.free childPtr
        match nodeSplit child with
        | none => none
        | some (_, pieces) => updateChildren s2 node idx (idx + 1) pieces
    else none

def treeDelete : Nat → Store → BtreeNode → Bytes → Option (Option BtreeNode × Store)
  | 0, _, _, _ => none
  | fuel + 1, s, node, key =>
    let idx := findLessThanOrEqualTo node key
    if node.getNodeType = BTREE_LEAF_NODE then
      if ¬ key = node.getKey idx then some (none, s)
      else some (some (leafDeleteKV node idx), s)
    else if node.getNodeType = BTREE_INTERNAL_NODE then
      let childPtr := node.getPointer idx
      match treeDelete fuel s (s.fetch childPtr) key with
      | none => none
      | some (none, s1) => some (none, s1)
      | some (some newChild, s1) =>
        let s2 := s1.free childPtr
        match shouldMerge s2 node idx newChild with
        | (MergeDir.noMerge, _) =>
          match updateChildren s2 node idx (idx + 1) [newChild] with
          | none => none
          | some (new, s3) => some (some new, s3)
        | (MergeDir.left, none) => none
        | (MergeDir.left, some sibling) =>
          match mergeNode sibling newChild with
          | none => none
          | some merged =>
            let s3 := s2.free (node.getPointer (idx - 1))
            match updateChildren s3 node (idx - 1) (idx + 1) [merged] with
            | none => none
            | some (new, s4) => some (some new, s4)
        | (MergeDir.right, none) => none
        | (MergeDir.right, some sibling) =>
          match mergeNode sibling newChild with
          | none => none
          | some merged =>
            let s3 := s2.free (node.getPointer (idx + 1))
            match updateChildren s3 node idx (idx + 2) [merged] with
            | none => none
            | some (new, s4) => some (some new, s4)
    else none

/-- Btree.Insert (src/btree.go lines 91-123).  The three leading asserts
panic on an invalid key or value (`none`); an empty tree gets a fresh
root leaf holding the empty sentinel and the pair. -/
def BtreeInsert (fuel : Nat) (s : Store) (root : Nat) (key val : Bytes) :
    Option (Nat × Store) :=
  if key.length = 0 then none
  else if BtreeMaxKeySize < key.length then none
  else if BtreeMaxValueSize < val.length then none
  else if root = 0 then
    some (s.alloc ⟨BTREE_LEAF_NODE, [⟨0, [], []⟩, ⟨0, key, val⟩]⟩)
  else
    let node := s.fetch root
    let s1 := s.free root
    match treeInsert fuel s1 node key val with
    | none => none
    | some (node1, s2) =>
      match nodeSplit node1 with
      | none => none
      | some (nsplit, pieces) =>
        if 1 < nsplit then
          match allocChildren s2 pieces with
          | none => none
          | some (slots, s3) => some (s3.alloc ⟨BTREE_INTERNAL_NODE, slots⟩)
        else
          match pieces with
          | [] => none
          | piece :: _ => some (s2.alloc piece)

/-- Btree.Delete (src/btree.go lines 72-89).  Note the source's root
collapse condition compares `newRoot.getNkeys()` (not the node type!)
with the constant `BTREE_INTERNAL_NODE = 1`: the collapse fires for every
one-slot new root, leaves included. -/
def BtreeDelete (fuel : Nat) (s : Store) (root : Nat) (key : Bytes) :
    Option (Bool × Nat × Store) :=
  if key.length = 0 then none
  else if BtreeMaxKeySize < key.length then none
  else if root = 0 then some (false, root, s)
  else
    match treeDelete fuel s (s.fetch root) key with
    | none => none
    | some (none, s1) => some (false, root, s1)
    | some (some newRoot, s1) =>
      let s2 := s1.free root
      if newRoot.getNkeys = BTREE_INTERNAL_NODE ∧ newRoot.getNkeys = 1 then
        some (true, newRoot.getPointer 0, s2)
      else
        some (true, s2.alloc newRoot)

/-! ### Operation sequences and the KV facade (src/kv.go) -/

inductive Op where
  | set (key val : Bytes)
  | del (key : Bytes)

def Op.key : Op → Bytes
  | .set k _ => k
  | .del k => k

def applyOp (fuel : Nat) (st : Nat × Store) : Op → Option (Nat × Store)
  | .set k v => BtreeInsert fuel st.2 st.1 k v
  | .del k =>
    match BtreeDelete fuel st.2 st.1 k with
    | none => none
    | some (_, root, s) => some (root, s)

def runOps (fuel : Nat) : (Nat × Store) → List Op → Option (Nat × Store)
  | st, [] => some st
  | st, op :: ops =>
    match applyOp fuel st op with
    | none => none
    | some st1 => runOps fuel st1 ops

/-- The part of the KV state that `KV.Del` touches: tree pages and root
plus the flushed-page counter. -/
structure KVState where
  store : Store
  root : Nat
  flushed : Nat

/-- KV.Del (src/kv.go lines 122-128): run the tree delete; when it
reports false, return `(false, nil)` at once; otherwise flush.  The
flushing step (`KV.flushPages`: free-list write, file growth, page
copy-out, two fsyncs and the master-page write) is abstracted as the
function argument `flush`, invoked exactly where the source calls
`db.flushPages()`. -/
def KVDel (flush : KVState → Option (Option Unit × KVState)) (fuel : Nat)
    (kv : KVState) (key : Bytes) : Option ((Bool × Option Unit) × KVState) :=
  match BtreeDelete fuel kv.store kv.root key with
  | none => none
  | some (ok, root1, s1) =>
    let kv1 : KVState := ⟨s1, root1, kv.flushed⟩
    if ok then
      match flush kv1 with
      | none => none
      | some (err, kv2) => some ((true, err), kv2)
    else some ((false, none), kv1)

/-! ### Free list (src/free_list.go)

A free-list page holds a 16-byte header (type, size, total - meaningful in
the head only -, next) and `size` 64-bit page ids; the embedding keeps
the id list (`ptrs`, whose length is the stored `size`), the `next` link
and the `total` field.  The free list reaches its pages through the three
callbacks wired in KV.Open: `get`, `allocatae` (KV.appendPage: a fresh
id) and `write`. -/

structure freeListNode where
  ptrs : List Nat
  next : Nat
  total : Nat
deriving Repr, DecidableEq

instance : Inhabited freeListNode := ⟨⟨[], 0, 0⟩⟩

/-- The package-level variable `freeListCap` of src/free_list.go.  It is
declared with the comment "the maximum number of pointers a free list
node can store" but never assigned anywhere in the package (the only
assignment sits in the commented-out test file), so it keeps Go's zero
value for `int`. -/
def freeListCap : Nat := 0

/-- The capacity the free-list page format supports: a page minus the
16-byte header, 8 bytes per id (spec section 3, "Free-list node"). -/
def freeListCapFormat : Nat := (PageSize - 16) / 8

structure FLPageStore where
  mem : Nat → freeListNode
  next : Nat

def FLPageStore.write (st : FLPageStore) (p : Nat) (n : freeListNode) : FLPageStore :=
  ⟨fun q => if q = p then n else st.mem q, st.next⟩

def FLPageStore.allocatae (st : FLPageStore) (n : freeListNode) : Nat × FLPageStore :=
  (st.next, ⟨fun q => if q = st.next then n else st.mem q, st.next + 1⟩)

/-- The free-list writer state touched by `writePtrs`: the page store,
the current head pointer and the on-disk size counter. -/
structure FLWriter where
  pages : FLPageStore
  head : Nat
  size : Nat

/-- freeList.writePtrs (src/free_list.go lines 222-247), parameterised by
the loop fuel: while ids remain, emit a node holding
`min(len(ptrs), freeListCap)` of them linked to the current head,
publishing it either over a reuse id or at a freshly appended page. -/
def writePtrsLoop : Nat → FLWriter → List Nat → List Nat → Option (FLWriter × List Nat)
  | 0, _, _, _ => none
  | fuel + 1, fl, ptrs, reuse =>
    match ptrs with
    | [] => some (fl, reuse)
    | _ :: _ =>
      let size := min ptrs.length freeListCap
      let node : freeListNode := ⟨ptrs.take size, fl.head, 0⟩
      let rest := ptrs.drop size
      match reuse with
      | r :: rs =>
        writePtrsLoop fuel ⟨fl.pages.write r node, r, fl.size + size⟩ rest rs
      | [] =>
        let (p, pages1) := fl.pages.allocatae node
        writePtrsLoop fuel ⟨pages1, p, fl.size + size⟩ rest []

/-! freeList.read (src/free_list.go lines 129-154).  The loop fills the
`freed` array from its end; per visited node it reads the ids at indices
`headNode.size()-i-1` **of the head node's size** (not the visited
node's), and then advances `head` to `headNode.next()` - again the head
node's link, not the visited node's.  Reads outside `[0, node.size())`
and writes past the start of `freed` are panics. -/

def readLoop (get : Nat → freeListNode) (headNode : freeListNode) :
    Nat → Nat → Nat → List Nat → Option (List Nat)
  | 0, _, _, _ => none
  | fuel + 1, head, remaining, acc =>
    if head = 0 then
      if remaining = 0 then some acc else none
    else
      let node := get head
      if node.ptrs.length ≤ remaining ∧
          (∀ i < node.ptrs.length, i < headNode.ptrs.length ∧
            headNode.ptrs.length - i - 1 < node.ptrs.length) then
        let seg := ((List.range node.ptrs.length).map
          (fun i => node.ptrs.getD (headNode.ptrs.length - i - 1) 0)).reverse
        readLoop get headNode fuel headNode.next (remaining - node.ptrs.length) (seg ++ acc)
      else none

/-- freeList.read: resolve the head, take `total` from it and walk the
chain; the result is the populated `freed` array and the in-memory
size. -/
def flRead (get : Nat → freeListNode) (fuel : Nat) (head : Nat) :
    Option (List Nat × Nat) :=
  if head = 0 then some ([], 0)
  else
    let headNode := get head
    match readLoop get headNode fuel head headNode.total [] with
    | none => none
    | some freed => some (freed, headNode.total)

/-! ### The master page check (src/kv.go lines 293-313)

KV.loadMasterPage parses the signature, the tree root, the flushed page
count (`npages`) and the free-list head; it returns an error on a bad
signature or bad `npages`/`root`, and otherwise installs the parsed
values (`db.flushed = npages`, `db.tree.root = root`) and calls
`db.freeList.read(freeListHead)` before returning nil.  That read
resolves its pages through the `freeList.page.get` callback wired in
KV.Open to KV.getPage (src/kv.go line 215), whose bounds assert demands
`0 < ptr && ptr < db.flushed + db.appended.Len()`; during Open the
`appended` cache is empty and `db.flushed` has just been set to
`npages`, so every page the read touches must satisfy `0 < ptr < npages`
or the process dies in the assert rather than returning. -/

/-- The signature constant (`var sig = []byte("deadsimpledb")`). -/
def sigBytes : Bytes := [100, 101, 97, 100, 115, 105, 109, 112, 108, 101, 100, 98]

inductive MasterPageError where
  | invalidSignature
  | invalidMasterPage
deriving Repr, DecidableEq

/-- KV.getPage as wired to `freeList.page.get` during Open: the bounds
assert (`0 < ptr && ptr < flushed`, the appended cache being empty) guards
every access; an out-of-range page id is a panic (`none`). -/
def kvPageGet (pages : Nat → freeListNode) (flushed : Nat) (u : Nat) :
    Option freeListNode :=
  if 0 < u ∧ u < flushed then some (pages u) else none

/-- The loop of freeList.read (src/free_list.go lines 141-152) over a
getter that can itself panic - the same embedding as `readLoop` (used
for C8 with a total getter), head-node slips included, plus the
propagated getter failure. -/
def readLoopChecked (get : Nat → Option freeListNode) (headNode : freeListNode) :
    Nat → Nat → Nat → List Nat → Option (List Nat)
  | 0, _, _, _ => none
  | fuel + 1, head, remaining, acc =>
    if head = 0 then
      if remaining = 0 then some acc else none
    else
      match get head with
      | none => none
      | some node =>
        if node.ptrs.length ≤ remaining ∧
            (∀ i < node.ptrs.length, i < headNode.ptrs.length ∧
              headNode.ptrs.length - i - 1 < node.ptrs.length) then
          let seg := ((List.range node.ptrs.length).map
            (fun i => node.ptrs.getD (headNode.ptrs.length - i - 1) 0)).reverse
          readLoopChecked get headNode fuel headNode.next
            (remaining - node.ptrs.length) (seg ++ acc)
        else none

/-- freeList.read over the panicking getter: resolve the head (a head of
0 returns at once, leaving `freed` empty and the size 0), take `total`
from the head node and walk the chain. -/
def flReadChecked (get : Nat → Option freeListNode) (fuel : Nat) (head : Nat) :
    Option (List Nat × Nat) :=
  if head = 0 then some ([], 0)
  else
    match get head with
    | none => none
    | some headNode =>
      match readLoopChecked get headNode fuel head headNode.total [] with
      | none => none
      | some freed => some (freed, headNode.total)

/-- KV.loadMasterPage: the master page carries the 16-byte signature
field (only the first `len(sig)` bytes are compared), the tree root, the
flushed page count (`npages`) and the free-list head.  `root < 0` is the
source's vacuous uint64 comparison.  Past the two error returns the
parsed values are installed and `freeList.read(freeListHead)` runs over
KV.getPage with `flushed = npages`; a panic inside it (bounds assert or
the read loop's own failures) is `none`, a successful open carries the
installed `flushed`, root and free-list head plus the populated `freed`
array and in-memory size. -/
def loadMasterPage (fileSize : Nat) (sigData : Bytes) (root npages freeListHead : Nat)
    (pages : Nat → freeListNode) (fuel : Nat) :
    Option (Except MasterPageError (Nat × Nat × Nat × List Nat × Nat)) :=
  if sigData.take sigBytes.length ≠ sigBytes then
    some (Except.error MasterPageError.invalidSignature)
  else if npages < 1 ∨ fileSize / PageSize < npages ∨ root < 0 ∨ npages ≤ root then
    some (Except.error MasterPageError.invalidMasterPage)
  else
    match flReadChecked (kvPageGet pages npages) fuel freeListHead with
    | none => none
    | some (freed, size) => some (Except.ok (npages, root, freeListHead, freed, size))

/-! ### Claim C5: findLessThanOrEqualTo returns the greatest index at or
below the target -/

theorem keyLe_trans {a b c : Bytes} (h1 : keyLe a b) (h2 : keyLe b c) : keyLe a c := by
  rcases (keyLe_iff a b).mp h1 with he | hlt
  · subst he; exact h2
  · exact keyLt_keyLe (keyLt_le_trans hlt h2)

theorem takeWhile_getD_true {α} (p : α → Bool) (d : α) :
    ∀ (l : List α) (i : Nat), i < (l.takeWhile p).length → p (l.getD i d) = true := by
  intro l
  induction l with
  | nil => intro i hi; simp [List.takeWhile] at hi
  | cons a l ih =>
    intro i hi
    rw [List.takeWhile_cons] at hi
    by_cases hpa : p a
    · rw [if_pos hpa] at hi
      cases i with
      | zero => simpa using hpa
      | succ i =>
        rw [List.length_cons] at hi
        rw [List.getD_cons_succ]
        exact ih i (by omega)
    · rw [if_neg hpa] at hi
      simp at hi

theorem takeWhile_getD_false {α} (p : α → Bool) (d : α) :
    ∀ (l : List α), (l.takeWhile p).length < l.length →
      p (l.getD (l.takeWhile p).length d) = false := by
  intro l
  induction l with
  | nil => intro h; simp at h
  | cons a l ih =>
    intro h
    rw [List.takeWhile_cons]
    by_cases hpa : p a
    · rw [List.takeWhile_cons, if_pos hpa] at h
      rw [if_pos hpa, List.length_cons, List.getD_cons_succ]
      apply ih
      simp only [List.length_cons] at h
      omega
    · rw [if_neg hpa]
      simpa using hpa

theorem takeWhileLenLe {α} (p : α → Bool) (l : List α) :
    (l.takeWhile p).length ≤ l.length := by
  induction l with
  | nil => simp [List.takeWhile]
  | cons a l ih =>
    rw [List.takeWhile_cons]
    by_cases hpa : p a
    · rw [if_pos hpa]
      simp only [List.length_cons]
      omega
    · rw [if_neg hpa]
      simp

instance : IsTrans Bytes keyLe := ⟨fun _ _ _ => keyLe_trans⟩

/-- Claim C5 (confirmed): in a node with at least one slot whose keys are
in non-decreasing byte order and whose slot-0 key is at most the target,
`findLessThanOrEqualTo` returns the greatest slot index whose key is less
than or equal to the target. -/
theorem c5_findLE_greatest (n : BtreeNode) (q : Bytes)
    (hne : n.slots ≠ [])
    (hsorted : (n.slots.map Slot.key).Chain' keyLe)
    (h0 : keyLe (n.getKey 0) q) :
    findLessThanOrEqualTo n q < n.slots.length ∧
    keyLe (n.getKey (findLessThanOrEqualTo n q)) q ∧
    ∀ j, j < n.slots.length → keyLe (n.getKey j) q → j ≤ findLessThanOrEqualTo n q := by
  obtain ⟨s0, tail, hslots⟩ : ∃ s0 tail, n.slots = s0 :: tail := by
    cases hsl : n.slots with
    | nil => exact absurd hsl hne
    | cons a l => exact ⟨a, l, rfl⟩
  have hkey : ∀ j, n.getKey j = ((s0 :: tail).getD j default).key := by
    intro j
    unfold BtreeNode.getKey
    rw [hslots]
  have hlen : n.slots.length = tail.length + 1 := by
    rw [hslots, List.length_cons]
  have hfeq := findLE_eq n q
  rw [hslots] at hfeq
  simp only [List.drop_succ_cons, List.drop_zero] at hfeq
  set r := findLessThanOrEqualTo n q with hr
  have hrlen : r ≤ tail.length := by
    rw [hfeq]
    exact takeWhileLenLe _ _
  have hpair : (Slot.key s0 :: tail.map Slot.key).Pairwise keyLe := by
    have hmap : (n.slots.map Slot.key) = Slot.key s0 :: tail.map Slot.key := by
      rw [hslots, List.map_cons]
    rw [hmap] at hsorted
    exact List.chain'_iff_pairwise.mp hsorted
  refine ⟨by omega, ?_, ?_⟩
  · rcases Nat.eq_zero_or_pos r with hz | hpos
    · rw [hz]
      exact h0
    · rw [hkey r]
      obtain ⟨r0, hr0⟩ : ∃ r0, r = r0 + 1 := ⟨r - 1, by omega⟩
      have hgd : ((s0 :: tail).getD r default).key = (tail.getD (r - 1) default).key := by
        rw [hr0]
        simp
      rw [hgd]
      have hi : r - 1 < (tail.takeWhile (fun sl => decide (keyLe sl.key q))).length := by
        rw [← hfeq]
        omega
      have := takeWhile_getD_true (fun sl => decide (keyLe sl.key q)) default tail (r - 1) hi
      simpa using this
  · intro j hj hle
    by_contra hgt
    push_neg at hgt
    have hrtl : r < tail.length := by omega
    have hfail := takeWhile_getD_false (fun sl => decide (keyLe sl.key q)) default tail
      (by rw [← hfeq]; omega)
    rw [← hfeq] at hfail
    have hfail' : ¬ keyLe (tail.getD r default).key q := by
      simpa using hfail
    have hqlt : keyLt q (tail.getD r default).key := not_keyLe hfail'
    have hj' : n.getKey j = (tail.getD (j - 1) default).key := by
      rw [hkey j]
      obtain ⟨j0, hj0⟩ : ∃ j0, j = j0 + 1 := ⟨j - 1, by omega⟩
      rw [hj0]
      simp
    have hle_rj : keyLe (tail.getD r default).key (tail.getD (j - 1) default).key := by
      rcases Nat.eq_or_lt_of_le (by omega : r ≤ j - 1) with he | hlt
      · rw [he]
        exact keyLe_refl _
      · have hpair' : (tail.map Slot.key).Pairwise keyLe :=
          (List.pairwise_cons.mp hpair).2
        have hjlen : j - 1 < tail.length := by omega
        have := (List.pairwise_iff_get.mp hpair')
          ⟨r, by rw [List.length_map]; omega⟩ ⟨j - 1, by rw [List.length_map]; omega⟩ hlt
        simpa [List.get_map, List.getD_eq_getElem?_getD, List.getElem?_eq_getElem,
          hrtl, hjlen] using this
    rw [hj'] at hle
    have h1 : keyLt q (tail.getD (j - 1) default).key := keyLt_le_trans hqlt hle_rj
    have h2 : keyLt q q := keyLt_le_trans h1 hle
    exact keyLt_irrefl q h2

/-- Witness for C5 at a concrete node: keys `[1] ≤ [2] ≤ [2] ≤ [5]`,
target `[3]`; the greatest index at or below the target is 2. -/
theorem c5_findLE_greatest_witness :
    (let n : BtreeNode := ⟨BTREE_LEAF_NODE,
      [⟨0, [1], []⟩, ⟨0, [2], []⟩, ⟨0, [2], []⟩, ⟨0, [5], []⟩]⟩
     n.slots ≠ [] ∧ (n.slots.map Slot.key).Chain' keyLe ∧ keyLe (n.getKey 0) [3] ∧
       findLessThanOrEqualTo n [3] = 2 ∧
       (findLessThanOrEqualTo n [3] < n.slots.length ∧
        keyLe (n.getKey (findLessThanOrEqualTo n [3])) [3] ∧
        ∀ j, j < n.slots.length → keyLe (n.getKey j) [3] →
          j ≤ findLessThanOrEqualTo n [3])) := by
  refine ⟨by decide, ?_, by decide, by decide,
    c5_findLE_greatest _ [3] (by decide) ?_ (by decide)⟩ <;>
  · show ([[1], [2], [2], [5]] : List Bytes).Chain' keyLe
    simp only [List.chain'_cons, List.chain'_singleton]
    exact ⟨by decide, by decide, by decide, trivial⟩

/-! ### Claim C3: the root-collapse condition after a delete -/

/-- A store holding a single root leaf (page 1) with the sentinel and the
pair `([97], [120])`. -/
def c3Store : Store :=
  ⟨fun p => if p = 1 then ⟨BTREE_LEAF_NODE, [⟨0, [], []⟩, ⟨0, [97], [120]⟩]⟩ else default, 2⟩

/-- Evaluation of the delete at the failing input: the recursive deletion
returns a leaf with exactly one slot (the sentinel), yet `Btree.Delete`
collapses the root to that slot's pointer (0, the null page) instead of
allocating the leaf: the published tree root is 0, not a fresh page. -/
theorem c3_collapse_eval :
    treeDelete 2 c3Store (c3Store.fetch 1) [97] =
      some (some ⟨BTREE_LEAF_NODE, [⟨0, [], []⟩]⟩, c3Store) ∧
    (BtreeDelete 2 c3Store 1 [97]).map (fun r => (r.1, r.2.1)) = some (true, 0) := by
  exact ⟨rfl, rfl⟩

/-! ### Claim C4: shouldMerge and the quarter-page threshold -/

/-- A small left sibling (size 20 bytes), stored at page 10. -/
def c4Sibling : BtreeNode := ⟨BTREE_LEAF_NODE, [⟨0, [1], [2]⟩]⟩

def c4Parent : BtreeNode :=
  ⟨BTREE_INTERNAL_NODE, [⟨10, [1], []⟩, ⟨11, [5], []⟩]⟩

def c4Store : Store := ⟨fun p => if p = 10 then c4Sibling else default, 12⟩

/-- A child of size exactly PageSize / 4 = 1024 bytes. -/
def c4Child : BtreeNode := ⟨BTREE_LEAF_NODE, [⟨0, [5], List.replicate 1005 9⟩]⟩

/-- A child of size 1023 bytes, strictly below the threshold. -/
def c4SmallChild : BtreeNode := ⟨BTREE_LEAF_NODE, [⟨0, [5], List.replicate 1004 9⟩]⟩

theorem c4Child_size : c4Child.size = 1024 := by
  simp only [c4Child, BtreeNode.size, List.map_cons, List.map_nil, slotExtra,
    List.length_replicate, BTREE_POINTER_SIZE, BTREE_OFFSET_SIZE, BTREE_KEY_LEN_SIZE,
    BTREE_VALUE_LEN_SIZE, BTREE_NODE_HEADER_SIZE]
  norm_num

theorem c4SmallChild_size : c4SmallChild.size = 1023 := by
  simp only [c4SmallChild, BtreeNode.size, List.map_cons, List.map_nil, slotExtra,
    List.length_replicate, BTREE_POINTER_SIZE, BTREE_OFFSET_SIZE, BTREE_KEY_LEN_SIZE,
    BTREE_VALUE_LEN_SIZE, BTREE_NODE_HEADER_SIZE]
  norm_num

/-- Counterexample to C4 as stated: a child of size exactly
`pageSize / 4` (not greater), with an existing left sibling that fits,
for which the claim demands merge_left, but the source's `>=` comparison
returns no_merge. -/
theorem c4_counterexample :
    ¬ (PageSize / 4 < c4Child.size) ∧
    0 < 1 ∧
    (c4Store.fetch (c4Parent.getPointer 0)).size + c4Child.size -
      BTREE_NODE_HEADER_SIZE ≤ PageSize ∧
    (shouldMerge c4Store c4Parent 1 c4Child).1 ≠ MergeDir.left := by
  have hsm : shouldMerge c4Store c4Parent 1 c4Child = (MergeDir.noMerge, none) := by
    unfold shouldMerge
    rw [c4Child_size]
    rw [if_pos (by decide)]
  refine ⟨by rw [c4Child_size]; decide, by decide, ?_, by rw [hsm]; decide⟩
  rw [c4Child_size]
  show c4Sibling.size + 1024 - BTREE_NODE_HEADER_SIZE ≤ PageSize
  decide

/-- Amended C4: `shouldMerge` returns no_merge whenever
`child.size() >= pageSize/4` (the source's comparison is `>=`, not `>`);
below the threshold it prefers a fitting left sibling, then a fitting
right sibling, else no_merge; merged size is computed as
`sibling.size() + child.size() - header`. -/
theorem c4_shouldMerge_amended (s : Store) (parent child : BtreeNode) (idx : Nat) :
    (PageSize / 4 ≤ child.size →
      shouldMerge s parent idx child = (MergeDir.noMerge, none)) ∧
    (child.size < PageSize / 4 →
      (0 < idx ∧ (s.fetch (parent.getPointer (idx - 1))).size + child.size -
          BTREE_NODE_HEADER_SIZE ≤ PageSize →
        shouldMerge s parent idx child =
          (MergeDir.left, some (s.fetch (parent.getPointer (idx - 1))))) ∧
      (¬ (0 < idx ∧ (s.fetch (parent.getPointer (idx - 1))).size + child.size -
          BTREE_NODE_HEADER_SIZE ≤ PageSize) →
        ((idx + 1 < parent.getNkeys ∧
            (s.fetch (parent.getPointer (idx + 1))).size + child.size -
              BTREE_NODE_HEADER_SIZE ≤ PageSize →
          shouldMerge s parent idx child =
            (MergeDir.right, some (s.fetch (parent.getPointer (idx + 1))))) ∧
         (¬ (idx + 1 < parent.getNkeys ∧
            (s.fetch (parent.getPointer (idx + 1))).size + child.size -
              BTREE_NODE_HEADER_SIZE ≤ PageSize) →
          shouldMerge s parent idx child = (MergeDir.noMerge, none))))) := by
  refine ⟨fun h => ?_, fun h => ⟨fun hl => ?_, fun hnl => ⟨fun hr => ?_, fun hnr => ?_⟩⟩⟩
  · unfold shouldMerge
    rw [if_pos h]
  · unfold shouldMerge
    rw [if_neg (by omega), if_pos hl]
  · unfold shouldMerge
    rw [if_neg (by omega), if_neg hnl, if_pos hr]
  · unfold shouldMerge
    rw [if_neg (by omega), if_neg hnl, if_neg hnr]

/-- Witness for the amended C4 at a concrete configuration: a child of
size 1023 (< 1024) with a fitting left sibling is merged left. -/
theorem c4_amended_witness :
    shouldMerge c4Store c4Parent 1 c4SmallChild =
      (MergeDir.left, some (c4Store.fetch (c4Parent.getPointer 0))) := by
  have h := ((c4_shouldMerge_amended c4Store c4Parent c4SmallChild 1).2
    (by rw [c4SmallChild_size]; decide)).1
    (by
      refine ⟨by decide, ?_⟩
      rw [c4SmallChild_size]
      show c4Sibling.size + 1023 - BTREE_NODE_HEADER_SIZE ≤ PageSize
      decide)
  exact h

/-! ### Claim C6: master-page validation on open -/

/-- Counterexample to C6 as stated: a master page whose free-list head
(5) is not below the flushed count (2) does not make open return an
error.  The validation passes (only npages and root are checked) and the
open then dies inside `freeList.read`, where KV.getPage's bounds assert
fails on page 5 - a fatal panic (`none`), whatever the file's pages hold
- so in particular the invalid-master-page error is never returned. -/
theorem c6_counterexample :
    2 ≤ 5 ∧
    (∀ (pages : Nat → freeListNode) (fuel : Nat),
      loadMasterPage (2 * PageSize) sigBytes 0 2 5 pages fuel = none) ∧
    ∀ (pages : Nat → freeListNode) (fuel : Nat),
      loadMasterPage (2 * PageSize) sigBytes 0 2 5 pages fuel ≠
        some (Except.error MasterPageError.invalidMasterPage) := by
  refine ⟨by decide, fun pages fuel => rfl, fun pages fuel h => ?_⟩
  rw [show loadMasterPage (2 * PageSize) sigBytes 0 2 5 pages fuel = none from rfl] at h
  exact Option.noConfusion h

/-- Amended C6: with a valid signature, open returns the
invalid-master-page error iff `flushed < 1`, `flushed > file_size/pageSize`
or `root >= flushed`; the free-list head is never part of that
validation: a head of 0 is accepted (empty free list), and a master page
whose head is >= flushed makes the whole open die on the page-bounds
assert inside `freeList.read` - a fatal panic, not a returned error. -/
theorem c6_loadMasterPage_amended (fileSize : Nat) (sigData : Bytes)
    (root npages freeListHead : Nat) (pages : Nat → freeListNode) (fuel : Nat)
    (hsig : sigData.take sigBytes.length = sigBytes) :
    (¬ (1 ≤ npages ∧ npages ≤ fileSize / PageSize ∧ root < npages) →
      loadMasterPage fileSize sigData root npages freeListHead pages fuel =
        some (Except.error MasterPageError.invalidMasterPage)) ∧
    ((1 ≤ npages ∧ npages ≤ fileSize / PageSize ∧ root < npages) →
      (npages ≤ freeListHead →
        loadMasterPage fileSize sigData root npages freeListHead pages fuel = none) ∧
      (freeListHead = 0 →
        loadMasterPage fileSize sigData root npages freeListHead pages fuel =
          some (Except.ok (npages, root, 0, [], 0)))) := by
  constructor
  · intro h
    unfold loadMasterPage
    rw [if_neg (by simpa using hsig), if_pos (by omega)]
  · intro h
    constructor
    · intro hhead
      unfold loadMasterPage
      rw [if_neg (by simpa using hsig), if_neg (by omega)]
      have hfl : flReadChecked (kvPageGet pages npages) fuel freeListHead = none := by
        unfold flReadChecked kvPageGet
        rw [if_neg (by omega : ¬ freeListHead = 0),
          if_neg (by omega : ¬ (0 < freeListHead ∧ freeListHead < npages))]
      rw [hfl]
    · intro hhead
      subst hhead
      unfold loadMasterPage
      rw [if_neg (by simpa using hsig), if_neg (by omega)]
      rfl

theorem c6_amended_witness :
    (sigBytes.take sigBytes.length = sigBytes) ∧
    loadMasterPage (3 * PageSize) sigBytes 4 3 0 (fun _ => default) 1 =
      some (Except.error MasterPageError.invalidMasterPage) ∧
    loadMasterPage (3 * PageSize) sigBytes 1 3 9 (fun _ => default) 1 = none ∧
    loadMasterPage (3 * PageSize) sigBytes 1 3 0 (fun _ => default) 1 =
      some (Except.ok (3, 1, 0, [], 0)) := by
  refine ⟨by decide, ?_, ?_, ?_⟩
  · exact (c6_loadMasterPage_amended (3 * PageSize) sigBytes 4 3 0
      (fun _ => default) 1 (by decide)).1 (by decide)
  · exact ((c6_loadMasterPage_amended (3 * PageSize) sigBytes 1 3 9
      (fun _ => default) 1 (by decide)).2 ⟨by decide, by decide, by decide⟩).1
      (by decide)
  · exact ((c6_loadMasterPage_amended (3 * PageSize) sigBytes 1 3 0
      (fun _ => default) 1 (by decide)).2 ⟨by decide, by decide, by decide⟩).2 rfl

/-! ### Claim C7: the free-list writer capacity -/

/-- The failing behaviour behind C7: `freeListCap` keeps its zero value
(it is never initialised), which is not the format capacity
`(PageSize - 16) / 8 = 510`, and with a zero capacity `writePtrs` makes
no progress: for every amount of fuel the loop fails to terminate on any
non-empty id list. -/
theorem c7_freeListCap_never_initialised :
    freeListCap = 0 ∧
    freeListCap ≠ (PageSize - 16) / 8 ∧
    ∀ (fuel : Nat) (fl : FLWriter) (p : Nat) (ps reuse : List Nat),
      writePtrsLoop fuel fl (p :: ps) reuse = none := by
  refine ⟨rfl, by decide, ?_⟩
  intro fuel
  induction fuel with
  | zero => intro fl p ps reuse; rfl
  | succ fuel ih =>
    intro fl p ps reuse
    cases reuse with
    | nil =>
      show writePtrsLoop (fuel + 1) fl (p :: ps) [] = none
      simp only [writePtrsLoop, freeListCap, Nat.min_zero, List.take_zero, List.drop_zero]
      exact ih _ _ _ _
    | cons r rs =>
      show writePtrsLoop (fuel + 1) fl (p :: ps) (r :: rs) = none
      simp only [writePtrsLoop, freeListCap, Nat.min_zero, List.take_zero, List.drop_zero]
      exact ih _ _ _ _

/-! ### Claim C8: reading a multi-page free list -/

/-- A well-formed two-page free-list chain: head page 1 holds id 7 with
`total = 2` and links to page 2, which holds id 8 and terminates. -/
def c8Get : Nat → freeListNode := fun p =>
  if p = 1 then ⟨[7], 2, 2⟩ else if p = 2 then ⟨[8], 0, 0⟩ else default

/-- Evaluation of `read` at the failing input: on the well-formed
two-page chain the loop never terminates normally (it keeps following the
head node's next pointer), so `read` panics for every amount of fuel
instead of populating `freed` with the ids 7 and 8. -/
theorem c8_read_diverges :
    (c8Get 1).total = 2 ∧ (c8Get 1).next = 2 ∧ (c8Get 2).next = 0 ∧
    (c8Get 1).ptrs = [7] ∧ (c8Get 2).ptrs = [8] ∧
    ∀ fuel, flRead c8Get fuel 1 = none := by
  refine ⟨rfl, rfl, rfl, rfl, rfl, ?_⟩
  intro fuel
  match fuel with
  | 0 => rfl
  | 1 => rfl
  | 2 => rfl
  | (n + 3) => rfl

/-! ### Claim C9: invalid keys and values on insert -/

def c9Store : Store := ⟨fun _ => default, 1⟩

/-- Counterexample to C9 as stated: inserting the empty key does not
return a client error to the caller - `Btree.Insert` has no error result
at all; its validation asserts fail fatally (`none`). -/
theorem c9_counterexample :
    BtreeInsert 1 c9Store 0 [] [5] = none := rfl

/-- Amended C9: for an empty key, an oversize key or an oversize value,
`Btree.Insert` terminates in a failed assertion (a fatal panic, before
any page is touched), rather than returning an error. -/
theorem c9_insert_asserts (fuel : Nat) (s : Store) (root : Nat) (key val : Bytes)
    (h : key.length = 0 ∨ BtreeMaxKeySize < key.length ∨ BtreeMaxValueSize < val.length) :
    BtreeInsert fuel s root key val = none := by
  have hk : BtreeMaxKeySize = 1359 := by decide
  unfold BtreeInsert
  rcases h with h | h | h
  · rw [if_pos h]
  · rw [if_neg (by omega), if_pos h]
  · by_cases h0 : key.length = 0
    · rw [if_pos h0]
    · by_cases h1 : BtreeMaxKeySize < key.length
      · rw [if_neg h0, if_pos h1]
      · rw [if_neg h0, if_neg h1, if_pos h]

theorem c9_amended_witness :
    ([] : Bytes).length = 0 ∧ BtreeInsert 1 c9Store 0 [] [] = none :=
  ⟨rfl, c9_insert_asserts 1 c9Store 0 [] [] (Or.inl rfl)⟩

/-! ### Claim C1: the round-trip property

The failing input: a two-leaf tree.  Page 1 is the root (children at
pages 2 and 3), page 2 the left leaf (sentinel plus key [15]), page 3 the
right leaf (keys [20] and [30]). -/

instance : Inhabited Store := ⟨⟨fun _ => default, 0⟩⟩

def c1Store : Store :=
  ⟨fun p =>
    if p = 1 then ⟨BTREE_INTERNAL_NODE, [⟨2, [], []⟩, ⟨3, [20], []⟩]⟩
    else if p = 2 then ⟨BTREE_LEAF_NODE, [⟨0, [], []⟩, ⟨0, [15], [43]⟩]⟩
    else if p = 3 then ⟨BTREE_LEAF_NODE, [⟨0, [20], [44]⟩, ⟨0, [30], [45]⟩]⟩
    else default, 4⟩

/-- Evaluation of the round-trip claim at the failing input: after
`set([10], [42])` the key is retrievable; the single further operation
`del([15])` touches only key [15], but it triggers a right-merge whose
`mergeNode(sibling, newChild)` call places the *right* sibling first, so
the merged leaf holds keys [20], [30], [], [10] - out of order - and the
subsequent `get([10])` returns not-found. -/
theorem c1_roundtrip_eval :
    ∃ st1 st2 : Nat × Store,
      BtreeInsert 3 c1Store 1 [10] [42] = some st1 ∧
      BtreeGet st1.2 st1.1 [10] 3 = some (some [42]) ∧
      Op.key (Op.del [15]) ≠ [10] ∧
      runOps 3 st1 [Op.del [15]] = some st2 ∧
      BtreeGet st2.2 st2.1 [10] 3 = some none := by
  refine ⟨(BtreeInsert 3 c1Store 1 [10] [42]).getD default,
    (runOps 3 ((BtreeInsert 3 c1Store 1 [10] [42]).getD default) [Op.del [15]]).getD default,
    rfl, rfl, by decide, rfl, rfl⟩

/-! ### Claim C10: deleting an absent key

The lookup and the deletion descend identically (same `findLessThanOrEqualTo`
index, same child pointer at every internal node), so whenever the lookup
reports not-found, `treeDelete` returns nil without touching the store. -/

theorem treeDelete_of_get_none :
    ∀ (fuel : Nat) (s : Store) (node : BtreeNode) (key : Bytes),
      treeGet s fuel node key = some none →
      treeDelete fuel s node key = some (none, s) := by
  intro fuel
  induction fuel with
  | zero => intro s node key h; exact absurd h (by simp [treeGet])
  | succ fuel ih =>
    intro s node key h
    by_cases hleaf : node.getNodeType = BTREE_LEAF_NODE
    · unfold treeGet at h
      rw [if_pos hleaf] at h
      unfold treeDelete
      rw [if_pos hleaf]
      by_cases heq : key = node.getKey (findLessThanOrEqualTo node key)
      · rw [if_pos heq] at h
        simp at h
      · rw [if_neg heq] at h
        rw [if_pos heq]
    · by_cases hint : node.getNodeType = BTREE_INTERNAL_NODE
      · unfold treeGet at h
        rw [if_neg hleaf, if_pos hint] at h
        unfold treeDelete
        rw [if_neg hleaf, if_pos hint]
        have hrec := ih s (s.fetch (node.getPointer (findLessThanOrEqualTo node key))) key h
        simp only [hrec]
      · unfold treeGet at h
        rw [if_neg hleaf, if_neg hint] at h
        exact absurd h (by simp)

/-- Counterexample to C10 as stated: the empty key is never present in
the tree, yet `KV.Del` on it does not return `(false, nil)` - the
delete's assertion fails fatally. -/
def c10KV : KVState := ⟨⟨fun _ => default, 1⟩, 0, 1⟩

theorem c10_counterexample :
    KVDel (fun kv => some (none, kv)) 1 c10KV [] = none := rfl

/-- Amended C10: for every key of valid size (`0 < len ≤ maxKeySize`)
that the tree lookup does not find - in particular on an empty tree -
`KV.Del` returns `(false, nil)` and the state is exactly unchanged: no
page is allocated or freed, root and flushed keep their values, and the
flush step (pager write-out, fsyncs, master page) is never invoked,
whatever it would do. -/
theorem c10_del_absent (flush : KVState → Option (Option Unit × KVState))
    (fuel : Nat) (kv : KVState) (key : Bytes)
    (hk0 : 0 < key.length) (hk1 : key.length ≤ BtreeMaxKeySize)
    (habsent : BtreeGet kv.store kv.root key fuel = some none) :
    KVDel flush fuel kv key = some ((false, none), kv) := by
  unfold BtreeGet at habsent
  rw [if_neg (by omega)] at habsent
  unfold KVDel BtreeDelete
  rw [if_neg (by omega), if_neg (by omega)]
  by_cases hroot : kv.root = 0
  · rw [if_pos hroot]
    show some ((false, none), (⟨kv.store, kv.root, kv.flushed⟩ : KVState)) = _
    rfl
  · rw [if_neg hroot] at habsent ⊢
    rw [treeDelete_of_get_none fuel kv.store (kv.store.fetch kv.root) key habsent]
    show some ((false, none), (⟨kv.store, kv.root, kv.flushed⟩ : KVState)) = _
    rfl

/-- Witness for the amended C10: deleting the absent key [7] from an
empty store returns `(false, nil)` and leaves the state untouched, for a
nontrivial flush function. -/
theorem c10_del_absent_witness :
    0 < ([7] : Bytes).length ∧ ([7] : Bytes).length ≤ BtreeMaxKeySize ∧
    BtreeGet c10KV.store c10KV.root [7] 1 = some none ∧
    KVDel (fun kv => some (none, ⟨kv.store, kv.root, kv.flushed + 1⟩)) 1 c10KV [7] =
      some ((false, none), c10KV) :=
  ⟨by decide, by decide, rfl,
    c10_del_absent (fun kv => some (none, ⟨kv.store, kv.root, kv.flushed + 1⟩))
      1 c10KV [7] (by decide) (by decide) rfl⟩
